import Mathlib

/-!
Verification of the `storage` repository's client model and refresh-token
storage against its specification.

The Go sources are embedded shallowly:
* package `model` (`model/client.go`, first part): the `Client` struct and its
  read accessors, notably `GetScopes` (space-splitting of the `Scope` string)
  and the defaulting accessors `GetGrantTypes` / `GetResponseTypes`.
* package `client` (`model/client.go`, second part): the richer `Client`
  struct with mutable `Scopes` / `AllowedTenantAccess` lists, the
  enable/disable mutators, and deep structural equality (`Equal`, `IsEmpty`,
  `strArrEquals`).
* package `request` (`request/request_oauth2_refresh_token_storage.go`):
  `DeleteRefreshTokenSession`, which delegates to the manager's
  `deleteSession` on the refresh-token collection.  `deleteSession` itself is
  not part of the provided sources, so it is modelled from the spec.

Go slices become Lean lists, Go strings become Lean strings, `[]byte` becomes
`List Nat`, and the mutating methods become pure functions returning the
updated record.
-/

namespace model

/-- Go's `strings.Split` for a single-character separator: slices the string
(as its character list) into all substrings separated by `sep`, keeping empty
substrings; splitting the empty string yields one empty substring. -/
def splitOnChar (sep : Char) : List Char → List (List Char)
  | [] => [[]]
  | c :: cs =>
    let rest := splitOnChar sep cs
    if c = sep then [] :: rest
    else (c :: rest.headD []) :: rest.tail

/-- The `model` package `Client` struct (OAuth2 client record). -/
structure Client where
  ID : String
  Name : String
  Secret : String
  RedirectURIs : List String
  GrantTypes : List String
  ResponseTypes : List String
  Scope : String
  Owner : String
  PolicyURI : String
  TermsOfServiceURI : String
  ClientURI : String
  LogoURI : String
  Contacts : List String
  Public : Bool
deriving DecidableEq

/-- `GetID` returns the client's Client ID. -/
def Client.GetID (c : Client) : String := c.ID

/-- `GetRedirectURIs` returns the authorized redirect URIs. -/
def Client.GetRedirectURIs (c : Client) : List String := c.RedirectURIs

/-- `GetScopes` splits the `Scope` string on a single space, as Go's
`strings.Split(c.Scope, " ")` does: no collapsing of separators, and splitting
the empty string yields `[""]`. -/
def Client.GetScopes (c : Client) : List String :=
  (splitOnChar ' ' c.Scope.data).map String.mk

/-- `GetGrantTypes` defaults to `["authorization_code"]` when the stored list
is empty. -/
def Client.GetGrantTypes (c : Client) : List String :=
  if c.GrantTypes.length = 0 then ["authorization_code"] else c.GrantTypes

/-- `GetResponseTypes` defaults to `["code"]` when the stored list is empty. -/
def Client.GetResponseTypes (c : Client) : List String :=
  if c.ResponseTypes.length = 0 then ["code"] else c.ResponseTypes

/-- `GetOwner` returns the owner string. -/
def Client.GetOwner (c : Client) : String := c.Owner

/-- `IsPublic` returns the `Public` flag. -/
def Client.IsPublic (c : Client) : Bool := c.Public

/-- A sample `model` client with every field empty except the ID. -/
def sampleModelClient : Client :=
  { ID := "c1", Name := "", Secret := "", RedirectURIs := [], GrantTypes := [],
    ResponseTypes := [], Scope := "", Owner := "", PolicyURI := "",
    TermsOfServiceURI := "", ClientURI := "", LogoURI := "", Contacts := [],
    Public := false }

/-- A sample `model` client whose scope string holds two scopes. -/
def sampleScopedClient : Client :=
  { sampleModelClient with Scope := "read write" }

end model

namespace client

/-- The `client` package `Client` struct (OAuth2 client record with
tenant-access and disabled flags; `Secret` is a byte slice). -/
structure Client where
  ID : String
  AllowedTenantAccess : List String
  Name : String
  Secret : List Nat
  RedirectURIs : List String
  GrantTypes : List String
  ResponseTypes : List String
  Scopes : List String
  Owner : String
  PolicyURI : String
  TermsOfServiceURI : String
  ClientURI : String
  LogoURI : String
  Contacts : List String
  Public : Bool
  Disabled : Bool
deriving DecidableEq

/-- `GetID` returns the client's Client ID. -/
def Client.GetID (c : Client) : String := c.ID

/-- `GetRedirectURIs` returns the authorized redirect URIs. -/
def Client.GetRedirectURIs (c : Client) : List String := c.RedirectURIs

/-- `GetHashedSecret` returns the stored (hashed) secret bytes. -/
def Client.GetHashedSecret (c : Client) : List Nat := c.Secret

/-- `GetScopes` returns the stored scopes list unchanged. -/
def Client.GetScopes (c : Client) : List String := c.Scopes

/-- `GetGrantTypes` defaults to `["authorization_code"]` when the stored list
is empty. -/
def Client.GetGrantTypes (c : Client) : List String :=
  if c.GrantTypes.length = 0 then ["authorization_code"] else c.GrantTypes

/-- `GetResponseTypes` defaults to `["code"]` when the stored list is empty. -/
def Client.GetResponseTypes (c : Client) : List String :=
  if c.ResponseTypes.length = 0 then ["code"] else c.ResponseTypes

/-- `GetOwner` returns the owner string. -/
def Client.GetOwner (c : Client) : String := c.Owner

/-- `IsPublic` returns the `Public` flag. -/
def Client.IsPublic (c : Client) : Bool := c.Public

/-- `IsDisabled` returns the `Disabled` flag. -/
def Client.IsDisabled (c : Client) : Bool := c.Disabled

/-- One step of the `EnableScopeAccess` / `EnableTenantAccess` loop body: scan
the current list for the value, and append it only when it was not found. -/
def addUnique (l : List String) (v : String) : List String :=
  if v ∈ l then l else l ++ [v]

/-- One step of the `DisableScopeAccess` / `DisableTenantAccess` loop body:
find the first index holding the value and splice it out (the Go code shifts
the tail left with `copy` and truncates); when the value is absent the list is
returned unchanged. -/
def removeFirst : List String → String → List String
  | [], _ => []
  | x :: xs, v => if x = v then xs else x :: removeFirst xs v

/-- `EnableScopeAccess` appends each given scope that is not already present. -/
def Client.EnableScopeAccess (c : Client) (scopes : List String) : Client :=
  { c with Scopes := scopes.foldl addUnique c.Scopes }

/-- `DisableScopeAccess` removes the first occurrence of each given scope. -/
def Client.DisableScopeAccess (c : Client) (scopes : List String) : Client :=
  { c with Scopes := scopes.foldl removeFirst c.Scopes }

/-- `EnableTenantAccess` appends each given tenant ID that is not already
present. -/
def Client.EnableTenantAccess (c : Client) (tenantIDs : List String) : Client :=
  { c with AllowedTenantAccess := tenantIDs.foldl addUnique c.AllowedTenantAccess }

/-- `DisableTenantAccess` removes the first occurrence of each given tenant
ID. -/
def Client.DisableTenantAccess (c : Client) (tenantIDs : List String) : Client :=
  { c with AllowedTenantAccess := tenantIDs.foldl removeFirst c.AllowedTenantAccess }

/-- `strArrEquals` compares two string slices by length and then element-wise
by position. -/
def strArrEquals (arr1 arr2 : List String) : Bool :=
  if arr1.length = arr2.length then
    (arr1.zip arr2).all fun p => p.1 == p.2
  else false

/-- `Equal` performs deep field-by-field comparison of two clients, in the
order the Go method checks them, returning `false` at the first difference.
The byte-slice `Secret` is compared as a sequence (Go compares
`string(c.Secret)` with `string(x.Secret)`). -/
def Client.Equal (c x : Client) : Bool :=
  if c.ID ≠ x.ID then false
  else if !strArrEquals c.AllowedTenantAccess x.AllowedTenantAccess then false
  else if c.Name ≠ x.Name then false
  else if c.Secret ≠ x.Secret then false
  else if !strArrEquals c.RedirectURIs x.RedirectURIs then false
  else if !strArrEquals c.GrantTypes x.GrantTypes then false
  else if !strArrEquals c.ResponseTypes x.ResponseTypes then false
  else if !strArrEquals c.Scopes x.Scopes then false
  else if c.Owner ≠ x.Owner then false
  else if c.PolicyURI ≠ x.PolicyURI then false
  else if c.TermsOfServiceURI ≠ x.TermsOfServiceURI then false
  else if c.ClientURI ≠ x.ClientURI then false
  else if c.LogoURI ≠ x.LogoURI then false
  else if !strArrEquals c.Contacts x.Contacts then false
  else if c.Public ≠ x.Public then false
  else if c.Disabled ≠ x.Disabled then false
  else true

/-- The Go zero value `Client{}`: empty strings, empty (nil) slices, false
booleans. -/
def zeroClient : Client :=
  { ID := "", AllowedTenantAccess := [], Name := "", Secret := [],
    RedirectURIs := [], GrantTypes := [], ResponseTypes := [], Scopes := [],
    Owner := "", PolicyURI := "", TermsOfServiceURI := "", ClientURI := "",
    LogoURI := "", Contacts := [], Public := false, Disabled := false }

/-- `IsEmpty` compares the client with the zero value `Client{}`. -/
def Client.IsEmpty (c : Client) : Bool := c.Equal zeroClient

/-- A sample client used by concrete witnesses. -/
def sampleClient : Client :=
  { zeroClient with
    ID := "c1", Scopes := ["a", "b"],
    AllowedTenantAccess := ["t1", "t2"] }

/-- A sample client with explicit grant and response types. -/
def sampleGrantClient : Client :=
  { zeroClient with GrantTypes := ["implicit"], ResponseTypes := ["token"] }

end client

namespace mongo

/-- Modelled from the spec: the artifact kinds
AccessToken, RefreshToken, AuthorizeCode, PKCE and OIDCSession,
one backing collection per kind (the `mongo.Collection*` constants referenced
by the `request` package). -/
inductive Collection where
  | AccessTokens
  | RefreshTokens
  | AuthorizeCodes
  | PKCESessions
  | OIDCSessions
deriving DecidableEq

/-- The `mongo.CollectionRefreshTokens` constant. -/
def CollectionRefreshTokens : Collection := Collection.RefreshTokens

/-- The `mongo.CollectionAccessTokens` constant. -/
def CollectionAccessTokens : Collection := Collection.AccessTokens

end mongo

namespace request

/-- Modelled from the spec: a stored artifact carries a `RequestID`
correlating it to the originating authorization request, plus an opaque
payload (the encoded session/request data, which the store never inspects). -/
structure Artifact where
  requestID : String
  payload : String
deriving DecidableEq

/-- The manager's persistent state: records keyed by collection (artifact
kind) and signature. -/
abbrev Store := List (mongo.Collection × String × Artifact)

/-- The `MongoManager`, reduced to the state its session operations act on. -/
structure MongoManager where
  store : Store
deriving DecidableEq

/-- Lookup of the artifact stored under a `(collection, signature)` key. -/
def MongoManager.getStored (m : MongoManager) (col : mongo.Collection)
    (signature : String) : Option Artifact :=
  (m.store.find? fun e => e.1 == col && e.2.1 == signature).map fun e => e.2.2

/-- Modelled from the spec: `deleteSession` is the manager's shared
delete-by-signature helper (`DeleteSession(K, signature)`); it removes the
artifact stored under the given signature in the given collection, treating
deletion of an absent signature as a success (idempotent-on-absence). -/
def MongoManager.deleteSession (m : MongoManager) (signature : String)
    (col : mongo.Collection) : MongoManager :=
  ⟨m.store.filter fun e => !(e.1 == col && e.2.1 == signature)⟩

/-- `DeleteRefreshTokenSession` removes a Refresh Token that has been
previously stored, by delegating to `deleteSession` on the refresh-token
collection (from `request/request_oauth2_refresh_token_storage.go`). -/
def MongoManager.DeleteRefreshTokenSession (m : MongoManager)
    (signature : String) : MongoManager :=
  m.deleteSession signature mongo.CollectionRefreshTokens

/-- A sample manager state holding one refresh token and one access token. -/
def sampleManager : MongoManager :=
  ⟨[(mongo.Collection.RefreshTokens, "sigR", ⟨"req1", "dataR"⟩),
    (mongo.Collection.AccessTokens, "sigA", ⟨"req1", "dataA"⟩)]⟩

end request

namespace client

theorem strArrEquals_true_iff : ∀ (a b : List String), strArrEquals a b = true ↔ a = b
  | [], [] => by simp [strArrEquals]
  | [], _ :: _ => by simp [strArrEquals]
  | _ :: _, [] => by simp [strArrEquals]
  | x :: xs, y :: ys => by
    have h := strArrEquals_true_iff xs ys
    by_cases hl : xs.length = ys.length
    · simp only [strArrEquals, if_pos hl] at h
      simp [strArrEquals, hl, h]
    · have hne : xs ≠ ys := fun he => hl (he ▸ rfl)
      simp [strArrEquals, hl, hne]

theorem if_false_else_true_iff (P : Prop) [Decidable P] (r : Bool) :
    ((if P then false else r) = true) ↔ (¬P ∧ r = true) := by
  by_cases h : P <;> simp [h]

theorem equal_true_iff_fields (c x : Client) : c.Equal x = true ↔
    (c.ID = x.ID ∧ c.AllowedTenantAccess = x.AllowedTenantAccess ∧ c.Name = x.Name ∧
      c.Secret = x.Secret ∧ c.RedirectURIs = x.RedirectURIs ∧
      c.GrantTypes = x.GrantTypes ∧ c.ResponseTypes = x.ResponseTypes ∧
      c.Scopes = x.Scopes ∧ c.Owner = x.Owner ∧ c.PolicyURI = x.PolicyURI ∧
      c.TermsOfServiceURI = x.TermsOfServiceURI ∧ c.ClientURI = x.ClientURI ∧
      c.LogoURI = x.LogoURI ∧ c.Contacts = x.Contacts ∧ c.Public = x.Public ∧
      c.Disabled = x.Disabled) := by
  simp only [Client.Equal, if_false_else_true_iff, ne_eq, not_not,
    Bool.not_eq_true, Bool.not_eq_false, Bool.not_eq_false',
    strArrEquals_true_iff, and_true]

theorem equal_true_iff_eq (c x : Client) : c.Equal x = true ↔ c = x := by
  rw [equal_true_iff_fields]
  cases c
  cases x
  simp

theorem addUnique_of_mem {l : List String} {v : String} (h : v ∈ l) :
    addUnique l v = l := if_pos h

theorem foldl_addUnique_of_mem :
    ∀ (vs l : List String), (∀ v ∈ vs, v ∈ l) → vs.foldl addUnique l = l
  | [], _, _ => rfl
  | v :: vs, l, h => by
    have hv : v ∈ l := h v (List.mem_cons_self ..)
    rw [List.foldl_cons, addUnique_of_mem hv]
    exact foldl_addUnique_of_mem vs l fun w hw => h w (List.mem_cons_of_mem _ hw)

theorem addUnique_eq_append (l : List String) (v : String) :
    ∃ e, addUnique l v = l ++ e := by
  unfold addUnique
  split
  · exact ⟨[], by simp⟩
  · exact ⟨[v], rfl⟩

theorem foldl_addUnique_eq_append :
    ∀ (vs l : List String), ∃ t, vs.foldl addUnique l = l ++ t
  | [], l => ⟨[], (List.append_nil l).symm⟩
  | v :: vs, l => by
    obtain ⟨e, he⟩ := addUnique_eq_append l v
    obtain ⟨t, ht⟩ := foldl_addUnique_eq_append vs (addUnique l v)
    exact ⟨e ++ t, by rw [List.foldl_cons, ht, he, List.append_assoc]⟩

theorem addUnique_nodup {l : List String} (h : l.Nodup) (v : String) :
    (addUnique l v).Nodup := by
  unfold addUnique
  split
  · exact h
  · next hv => simp [List.nodup_append, h, hv]

theorem foldl_addUnique_nodup :
    ∀ (vs l : List String), l.Nodup → (vs.foldl addUnique l).Nodup
  | [], _, h => h
  | _ :: vs, _, h => foldl_addUnique_nodup vs _ (addUnique_nodup h _)

theorem removeFirst_of_not_mem :
    ∀ {l : List String} {v : String}, v ∉ l → removeFirst l v = l
  | [], _, _ => rfl
  | x :: xs, v, h => by
    simp only [List.mem_cons, not_or] at h
    have hxv : ¬ x = v := fun hx => h.1 hx.symm
    show (if x = v then xs else x :: removeFirst xs v) = x :: xs
    rw [if_neg hxv, removeFirst_of_not_mem h.2]

theorem removeFirst_sublist :
    ∀ (l : List String) (v : String), List.Sublist (removeFirst l v) l
  | [], _ => List.Sublist.refl _
  | x :: xs, v => by
    simp only [removeFirst]
    split
    · exact List.sublist_cons_self x xs
    · exact List.Sublist.cons₂ x (removeFirst_sublist xs v)

theorem foldl_removeFirst_sublist :
    ∀ (vs l : List String), List.Sublist (vs.foldl removeFirst l) l
  | [], l => List.Sublist.refl l
  | v :: vs, l =>
    (foldl_removeFirst_sublist vs (removeFirst l v)).trans (removeFirst_sublist l v)

theorem foldl_removeFirst_nodup (vs l : List String) (h : l.Nodup) :
    (vs.foldl removeFirst l).Nodup :=
  h.sublist (foldl_removeFirst_sublist vs l)

theorem removeFirst_eq_filter :
    ∀ {l : List String}, l.Nodup → ∀ (v : String),
      removeFirst l v = l.filter fun x => !(x == v)
  | [], _, _ => rfl
  | x :: xs, h, v => by
    rw [List.nodup_cons] at h
    by_cases hxv : x = v
    · subst hxv
      simp only [removeFirst, if_pos rfl, List.filter_cons, beq_self_eq_true,
        Bool.not_true, if_neg]
      exact (List.filter_eq_self.mpr fun a ha => by
        simp only [Bool.not_eq_true']
        exact beq_false_of_ne fun he => h.1 (he ▸ ha)).symm
    · simp only [removeFirst, if_neg hxv, List.filter_cons,
        beq_false_of_ne hxv, Bool.not_false, if_pos]
      rw [removeFirst_eq_filter h.2 v]

end client

namespace request

theorem find?_filter_of_imp {α : Type} (p q : α → Bool) (l : List α)
    (h : ∀ x, p x = true → q x = true) : (l.filter q).find? p = l.find? p := by
  induction l with
  | nil => rfl
  | cons x xs ih =>
    cases hq : q x with
    | true =>
      rw [List.filter_cons_of_pos hq]
      cases hp : p x with
      | true => simp [List.find?, hp]
      | false => simp [List.find?, hp, ih]
    | false =>
      have hp : p x = false := by
        cases hpx : p x
        · rfl
        · rw [h x hpx] at hq
          exact absurd hq (by simp)
      rw [List.filter_cons_of_neg (by simp [hq])]
      simp [List.find?, hp, ih]

theorem getStored_deleteSession_same (m : MongoManager) (sig : String)
    (col : mongo.Collection) : (m.deleteSession sig col).getStored col sig = none := by
  simp only [MongoManager.deleteSession, MongoManager.getStored]
  rw [List.find?_eq_none.mpr, Option.map_none']
  intro e he hpe
  rw [List.mem_filter] at he
  rw [hpe] at he
  exact absurd he.2 (by simp)

theorem getStored_deleteSession_other (m : MongoManager) (sig : String)
    (col col2 : mongo.Collection) (sig2 : String)
    (h : col2 ≠ col ∨ sig2 ≠ sig) :
    (m.deleteSession sig col).getStored col2 sig2 = m.getStored col2 sig2 := by
  simp only [MongoManager.deleteSession, MongoManager.getStored]
  rw [find?_filter_of_imp]
  intro e hpe
  simp only [Bool.and_eq_true, beq_iff_eq] at hpe
  rcases h with h | h
  · simp [hpe.1, h]
  · simp [hpe.2, h]

end request

/-- Claim C1, as stated, is false: `DeleteRefreshTokenSession` is not a
silent no-op.  On a concrete manager holding one refresh token under
signature "sigR", calling `DeleteRefreshTokenSession "sigR"` changes the
stored refresh-token artifact for that signature (it deletes it). -/
theorem deleteRefreshTokenSession_not_noop :
    ¬ ((request.sampleManager.DeleteRefreshTokenSession "sigR").getStored
        mongo.CollectionRefreshTokens "sigR" =
      request.sampleManager.getStored mongo.CollectionRefreshTokens "sigR") := by
  decide

/-- Claim C1 (amended): `DeleteRefreshTokenSession` delegates to the
manager's `deleteSession` on the refresh-token collection, so for every
signature it removes the stored refresh-token artifact for that signature
(afterwards the lookup yields `none`), while artifacts under any other
collection or signature are left unchanged. -/
theorem deleteRefreshTokenSession_deletes (m : request.MongoManager)
    (signature : String) (col : mongo.Collection) (sig2 : String)
    (h : col ≠ mongo.CollectionRefreshTokens ∨ sig2 ≠ signature) :
    (m.DeleteRefreshTokenSession signature).getStored
        mongo.CollectionRefreshTokens signature = none ∧
    (m.DeleteRefreshTokenSession signature).getStored col sig2 =
      m.getStored col sig2 :=
  ⟨request.getStored_deleteSession_same m signature mongo.CollectionRefreshTokens,
   request.getStored_deleteSession_other m signature
     mongo.CollectionRefreshTokens col sig2 h⟩

/-- Witness for the amended claim C1 at a concrete manager state: deleting
refresh token "sigR" removes it and leaves the access token "sigA" intact. -/
theorem deleteRefreshTokenSession_deletes_witness :
    (request.sampleManager.DeleteRefreshTokenSession "sigR").getStored
        mongo.CollectionRefreshTokens "sigR" = none ∧
    (request.sampleManager.DeleteRefreshTokenSession "sigR").getStored
        mongo.CollectionAccessTokens "sigA" =
      request.sampleManager.getStored mongo.CollectionAccessTokens "sigA" :=
  deleteRefreshTokenSession_deletes request.sampleManager "sigR"
    mongo.CollectionAccessTokens "sigA" (Or.inl (by decide))

namespace client

/-- Claim C2: `GetGrantTypes` returns exactly `["authorization_code"]` when
the stored `GrantTypes` list is empty and the stored list unchanged
otherwise; `GetResponseTypes` returns exactly `["code"]` when the stored
`ResponseTypes` list is empty and the stored list unchanged otherwise.  The
accessors are pure functions of the record, so the stored fields themselves
are untouched. -/
theorem getTypes_default_substitution (c : Client) :
    (c.GrantTypes = [] → c.GetGrantTypes = ["authorization_code"]) ∧
    (c.GrantTypes ≠ [] → c.GetGrantTypes = c.GrantTypes) ∧
    (c.ResponseTypes = [] → c.GetResponseTypes = ["code"]) ∧
    (c.ResponseTypes ≠ [] → c.GetResponseTypes = c.ResponseTypes) := by
  refine ⟨fun h => ?_, fun h => ?_, fun h => ?_, fun h => ?_⟩ <;>
    simp [Client.GetGrantTypes, Client.GetResponseTypes, h, List.length_eq_zero]

/-- Witness for claim C2 at concrete clients with empty and non-empty
stored lists. -/
theorem getTypes_default_substitution_witness :
    zeroClient.GetGrantTypes = ["authorization_code"] ∧
    sampleGrantClient.GetGrantTypes = ["implicit"] ∧
    zeroClient.GetResponseTypes = ["code"] ∧
    sampleGrantClient.GetResponseTypes = ["token"] :=
  ⟨(getTypes_default_substitution zeroClient).1 rfl,
   (getTypes_default_substitution sampleGrantClient).2.1 (by decide),
   (getTypes_default_substitution zeroClient).2.2.1 rfl,
   (getTypes_default_substitution sampleGrantClient).2.2.2 (by decide)⟩

/-- Claim C3: `EnableScopeAccess` and `EnableTenantAccess` are idempotent
set inserts: enabling values already present leaves the list unchanged, and
`EnableScopeAccess ["a", "b"]` followed by `EnableScopeAccess ["a"]` on a
fresh client leaves the scopes exactly `["a", "b"]` with no duplicates. -/
theorem enableAccess_idempotent :
    (∀ (c : Client) (vs : List String), (∀ v ∈ vs, v ∈ c.Scopes) →
      (c.EnableScopeAccess vs).Scopes = c.Scopes) ∧
    (∀ (c : Client) (vs : List String), (∀ v ∈ vs, v ∈ c.AllowedTenantAccess) →
      (c.EnableTenantAccess vs).AllowedTenantAccess = c.AllowedTenantAccess) ∧
    ((zeroClient.EnableScopeAccess ["a", "b"]).EnableScopeAccess ["a"]).Scopes
      = ["a", "b"] ∧
    ((zeroClient.EnableScopeAccess ["a", "b"]).EnableScopeAccess ["a"]).Scopes.Nodup := by
  refine ⟨?_, ?_, by decide, by decide⟩
  · intro c vs h
    exact foldl_addUnique_of_mem vs c.Scopes h
  · intro c vs h
    exact foldl_addUnique_of_mem vs c.AllowedTenantAccess h

/-- Witness for claim C3 at a concrete client whose scopes are
`["a", "b"]` and whose tenants are `["t1", "t2"]`. -/
theorem enableAccess_idempotent_witness :
    (sampleClient.EnableScopeAccess ["a"]).Scopes = sampleClient.Scopes ∧
    (sampleClient.EnableTenantAccess ["t1"]).AllowedTenantAccess =
      sampleClient.AllowedTenantAccess :=
  ⟨enableAccess_idempotent.1 sampleClient ["a"] (by decide),
   enableAccess_idempotent.2.1 sampleClient ["t1"] (by decide)⟩

/-- Claim C4: `DisableScopeAccess` and `DisableTenantAccess` remove exactly
the named values and nothing else: disabling an absent value is a no-op, on
a duplicate-free list the result is the list with the value filtered out,
and on a client with scopes (resp. tenants) `["a", "b"]` disabling "a"
yields exactly `["b"]`. -/
theorem disableAccess_removes_named :
    (∀ (c : Client) (v : String), v ∉ c.Scopes →
      (c.DisableScopeAccess [v]).Scopes = c.Scopes) ∧
    (∀ (c : Client) (v : String), c.Scopes.Nodup →
      (c.DisableScopeAccess [v]).Scopes = c.Scopes.filter fun x => !(x == v)) ∧
    (∀ c : Client, c.Scopes = ["a", "b"] →
      (c.DisableScopeAccess ["a"]).Scopes = ["b"]) ∧
    (∀ (c : Client) (v : String), v ∉ c.AllowedTenantAccess →
      (c.DisableTenantAccess [v]).AllowedTenantAccess = c.AllowedTenantAccess) ∧
    (∀ (c : Client) (v : String), c.AllowedTenantAccess.Nodup →
      (c.DisableTenantAccess [v]).AllowedTenantAccess =
        c.AllowedTenantAccess.filter fun x => !(x == v)) ∧
    (∀ c : Client, c.AllowedTenantAccess = ["a", "b"] →
      (c.DisableTenantAccess ["a"]).AllowedTenantAccess = ["b"]) := by
  refine ⟨?_, ?_, ?_, ?_, ?_, ?_⟩
  · intro c v h
    show List.foldl removeFirst c.Scopes [v] = c.Scopes
    simp [removeFirst_of_not_mem h]
  · intro c v h
    show List.foldl removeFirst c.Scopes [v] = _
    simp [removeFirst_eq_filter h v]
  · intro c h
    show List.foldl removeFirst c.Scopes ["a"] = ["b"]
    rw [h]
    decide
  · intro c v h
    show List.foldl removeFirst c.AllowedTenantAccess [v] = c.AllowedTenantAccess
    simp [removeFirst_of_not_mem h]
  · intro c v h
    show List.foldl removeFirst c.AllowedTenantAccess [v] = _
    simp [removeFirst_eq_filter h v]
  · intro c h
    show List.foldl removeFirst c.AllowedTenantAccess ["a"] = ["b"]
    rw [h]
    decide

/-- Witness for claim C4 at a concrete client: disabling an absent scope is
a no-op, disabling "a" from scopes `["a", "b"]` leaves `["b"]`, and tenant
removal filters the named tenant. -/
theorem disableAccess_removes_named_witness :
    (sampleClient.DisableScopeAccess ["z"]).Scopes = sampleClient.Scopes ∧
    (sampleClient.DisableScopeAccess ["a"]).Scopes = ["b"] ∧
    (sampleClient.DisableTenantAccess ["t1"]).AllowedTenantAccess =
      sampleClient.AllowedTenantAccess.filter fun x => !(x == "t1") :=
  ⟨disableAccess_removes_named.1 sampleClient "z" (by decide),
   disableAccess_removes_named.2.2.1 sampleClient (by decide),
   disableAccess_removes_named.2.2.2.2.1 sampleClient "t1" (by decide)⟩

/-- Claim C5: starting from a duplicate-free `Scopes` (resp.
`AllowedTenantAccess`) list, any call to the enable/disable mutators leaves
the list duplicate-free, and the enable operations only append: the new
list is the old list followed by some (possibly empty) tail, so the
relative order of existing elements is preserved. -/
theorem mutators_preserve_uniqueness (c : Client) (vs : List String) :
    (c.Scopes.Nodup →
      (c.EnableScopeAccess vs).Scopes.Nodup ∧
      (c.DisableScopeAccess vs).Scopes.Nodup ∧
      ∃ t, (c.EnableScopeAccess vs).Scopes = c.Scopes ++ t) ∧
    (c.AllowedTenantAccess.Nodup →
      (c.EnableTenantAccess vs).AllowedTenantAccess.Nodup ∧
      (c.DisableTenantAccess vs).AllowedTenantAccess.Nodup ∧
      ∃ t, (c.EnableTenantAccess vs).AllowedTenantAccess =
        c.AllowedTenantAccess ++ t) := by
  constructor
  · intro h
    exact ⟨foldl_addUnique_nodup vs _ h, foldl_removeFirst_nodup vs _ h,
      foldl_addUnique_eq_append vs _⟩
  · intro h
    exact ⟨foldl_addUnique_nodup vs _ h, foldl_removeFirst_nodup vs _ h,
      foldl_addUnique_eq_append vs _⟩

/-- Witness for claim C5 at a concrete client and argument list. -/
theorem mutators_preserve_uniqueness_witness :
    (sampleClient.EnableScopeAccess ["b", "c"]).Scopes.Nodup ∧
    (sampleClient.DisableScopeAccess ["b", "c"]).Scopes.Nodup ∧
    ∃ t, (sampleClient.EnableScopeAccess ["b", "c"]).Scopes =
      sampleClient.Scopes ++ t :=
  (mutators_preserve_uniqueness sampleClient ["b", "c"]).1 (by decide)

/-- Claim C6: `Equal` is deep structural equality over all fields,
slice fields compared element-wise (as list equality): `c.Equal x` is true
iff every field of `c` equals the corresponding field of `x`, equivalently
iff `c = x`; consequently it is false whenever any single field differs. -/
theorem equal_deep_structural_equality (c x : Client) :
    (c.Equal x = true ↔
      (c.ID = x.ID ∧ c.AllowedTenantAccess = x.AllowedTenantAccess ∧
        c.Name = x.Name ∧ c.Secret = x.Secret ∧
        c.RedirectURIs = x.RedirectURIs ∧ c.GrantTypes = x.GrantTypes ∧
        c.ResponseTypes = x.ResponseTypes ∧ c.Scopes = x.Scopes ∧
        c.Owner = x.Owner ∧ c.PolicyURI = x.PolicyURI ∧
        c.TermsOfServiceURI = x.TermsOfServiceURI ∧ c.ClientURI = x.ClientURI ∧
        c.LogoURI = x.LogoURI ∧ c.Contacts = x.Contacts ∧
        c.Public = x.Public ∧ c.Disabled = x.Disabled)) ∧
    (c.Equal x = true ↔ c = x) :=
  ⟨equal_true_iff_fields c x, equal_true_iff_eq c x⟩

/-- Claim C7: `IsEmpty` is true exactly for the zero-value client: every
field equals the corresponding zero value (empty strings, empty slices,
false booleans). -/
theorem isEmpty_iff_zero_value (c : Client) :
    c.IsEmpty = true ↔
      (c.ID = "" ∧ c.AllowedTenantAccess = [] ∧ c.Name = "" ∧ c.Secret = [] ∧
        c.RedirectURIs = [] ∧ c.GrantTypes = [] ∧ c.ResponseTypes = [] ∧
        c.Scopes = [] ∧ c.Owner = "" ∧ c.PolicyURI = "" ∧
        c.TermsOfServiceURI = "" ∧ c.ClientURI = "" ∧ c.LogoURI = "" ∧
        c.Contacts = [] ∧ c.Public = false ∧ c.Disabled = false) := by
  unfold Client.IsEmpty
  rw [equal_true_iff_fields]
  exact Iff.rfl

/-- Claim C10: `Equal` is reflexive, and symmetric as a Boolean-valued
relation. -/
theorem equal_refl_symm :
    (∀ c : Client, c.Equal c = true) ∧
    (∀ c x : Client, c.Equal x = x.Equal c) := by
  constructor
  · intro c
    exact (equal_true_iff_eq c c).mpr rfl
  · intro c x
    rw [Bool.eq_iff_iff, equal_true_iff_eq, equal_true_iff_eq]
    exact eq_comm

end client

namespace model

/-- Claim C8: the `model` package `GetScopes` splits the `Scope` string on a
space; on an empty `Scope` string it returns the one-element list `[""]`
(not the empty list), and on a non-empty string such as "read write" it
returns the space-separated components in order. -/
theorem getScopes_split_semantics :
    (∀ c : Client, c.Scope = "" → c.GetScopes = [""] ∧ c.GetScopes ≠ []) ∧
    (∀ c : Client, c.Scope = "read write" → c.GetScopes = ["read", "write"]) := by
  constructor
  · intro c h
    simp only [Client.GetScopes, h]
    exact ⟨by decide, by decide⟩
  · intro c h
    simp only [Client.GetScopes, h]
    decide

/-- Witness for claim C8 at concrete clients with an empty and a two-scope
`Scope` string. -/
theorem getScopes_split_semantics_witness :
    (sampleModelClient.GetScopes = [""] ∧ sampleModelClient.GetScopes ≠ []) ∧
    sampleScopedClient.GetScopes = ["read", "write"] :=
  ⟨getScopes_split_semantics.1 sampleModelClient rfl,
   getScopes_split_semantics.2 sampleScopedClient rfl⟩

end model

/-- Claim C9: the two `Client` implementations agree on their shared
accessors: whenever the shared fields (ID, GrantTypes, ResponseTypes,
Owner, RedirectURIs, Public) coincide, `GetID`, `GetGrantTypes`,
`GetResponseTypes`, `GetOwner`, `GetRedirectURIs` and `IsPublic` return
identical results, including the same empty-list default substitution. -/
theorem sharedAccessors_agree (cm : model.Client) (cc : client.Client)
    (hID : cm.ID = cc.ID) (hGT : cm.GrantTypes = cc.GrantTypes)
    (hRT : cm.ResponseTypes = cc.ResponseTypes) (hOwn : cm.Owner = cc.Owner)
    (hRU : cm.RedirectURIs = cc.RedirectURIs) (hPub : cm.Public = cc.Public) :
    cm.GetID = cc.GetID ∧ cm.GetGrantTypes = cc.GetGrantTypes ∧
    cm.GetResponseTypes = cc.GetResponseTypes ∧ cm.GetOwner = cc.GetOwner ∧
    cm.GetRedirectURIs = cc.GetRedirectURIs ∧ cm.IsPublic = cc.IsPublic := by
  simp [model.Client.GetID, client.Client.GetID, model.Client.GetGrantTypes,
    client.Client.GetGrantTypes, model.Client.GetResponseTypes,
    client.Client.GetResponseTypes, model.Client.GetOwner,
    client.Client.GetOwner, model.Client.GetRedirectURIs,
    client.Client.GetRedirectURIs, model.Client.IsPublic,
    client.Client.IsPublic, hID, hGT, hRT, hOwn, hRU, hPub]

/-- Witness for claim C9 at a concrete pair of clients sharing all the
shared fields. -/
theorem sharedAccessors_agree_witness :
    model.sampleModelClient.GetID = client.sampleClient.GetID ∧
    model.sampleModelClient.GetGrantTypes = client.sampleClient.GetGrantTypes ∧
    model.sampleModelClient.GetResponseTypes =
      client.sampleClient.GetResponseTypes ∧
    model.sampleModelClient.GetOwner = client.sampleClient.GetOwner ∧
    model.sampleModelClient.GetRedirectURIs =
      client.sampleClient.GetRedirectURIs ∧
    model.sampleModelClient.IsPublic = client.sampleClient.IsPublic :=
  sharedAccessors_agree model.sampleModelClient client.sampleClient
    rfl rfl rfl rfl rfl rfl
